import Mathlib

/-!
Verification of the RSA key-generation and OAEP module of the ptCrypt
library (file ptCrypt/Asymmetric/RSA.py) against its natural-language
specification.

The Python module is shallowly embedded below.  Machine integers are ℕ / ℤ
(Python integers are unbounded, so no wrap-around modelling is needed);
functions that may return Python None return Option values; loops are
embedded as fuel-indexed recursions whose value is
  none            — the fuel ran out while the Python loop was still running,
  some r          — the Python function returned r (r itself is an Option:
                    some pair on success, none for a Python "return None").
External collaborators of the module (the primality oracle, the
Util.keys tables, the hash function and the OS random generator) are taken
as explicit function parameters, following the specification, which treats
them as black-box services.  Calls to the random generator are modelled by
an infinite stream rnd : ℕ → ℕ together with a running index; the k-th
call of randbits(b) returns rnd k % 2 ^ b.
-/

set_option maxRecDepth 400000

namespace PtCryptRSA

/-! ### Python integer primitives -/

/-- Fuel-driven helper for the bit length of a natural number. -/
def bitLenF : ℕ → ℕ → ℕ
  | 0, _ => 0
  | fuel + 1, x => if x = 0 then 0 else bitLenF fuel (x / 2) + 1

/-- Python int.bit_length(): number of binary digits, 0 for 0. -/
def pyBitLength (x : ℕ) : ℕ := bitLenF x x

/-- Fuel-driven binary modular exponentiation. -/
def powModAux : ℕ → ℕ → ℕ → ℕ → ℕ
  | 0, _, _, m => 1 % m
  | fuel + 1, b, e, m =>
    if e = 0 then 1 % m
    else
      let r := powModAux fuel (b * b % m) (e / 2) m
      if e % 2 = 1 then r * b % m else r

/-- Python built-in pow(b, e, m) for m > 0: modular exponentiation. -/
def pyPowMod (b e m : ℕ) : ℕ := powModAux e b e m

/-- Python built-in pow(a, -1, m): the modular inverse of a modulo m,
in the range [0, m).  Python raises ValueError when m = 0 or when the
inverse does not exist; both are modelled by none. -/
def pyInvMod (a m : ℕ) : Option ℕ :=
  if m = 0 then none
  else (List.range m).find? (fun x => a * x % m = 1 % m)

/-! ### The CRT constant R of generateProbablePrimeWithAuxiliaryPrimes

Source (RSA.py, lines 376-378):
  R = (pow(p2, -1, 2 * p1) * p2) - ((pow(2 * p1, -1, p2) * 2 * p1 ))
  assert (R % (2*p1)) == 1 and (R % p2) == (-1 % p2)
-/

/-- The value R computed in generateProbablePrimeWithAuxiliaryPrimes;
none when one of the Python pow(·, -1, ·) calls raises. -/
def computeR (p1 p2 : ℕ) : Option ℤ :=
  match pyInvMod p2 (2 * p1), pyInvMod (2 * p1) p2 with
  | some a, some b => some ((a : ℤ) * (p2 : ℤ) - (b : ℤ) * (2 * (p1 : ℤ)))
  | _, _ => none

/-! ### generateProbablePrimes (RSA.py lines 92-157, FIPS 186-4 B.3.3)

millerRabinTestsForIFC and primality.millerRabin live outside the shown
sources; following the specification they are the parameters mrT
(the first component of the returned tuple) and mr.
-/

/-- RSA.py line 118: coeff1 = 665857 * pow(2, N // 2 - 1) // 470832. -/
def coeff1 (N : ℕ) : ℕ := 665857 * 2 ^ (N / 2 - 1) / 470832

/-- The p-search loop of generateProbablePrimes (lines 121-135).
Arguments after the stream: current stream index k, counter i, fuel. -/
def probLoopP (mr : ℕ → ℕ → Bool) (tests e N coeff : ℕ) (rnd : ℕ → ℕ) :
    ℕ → ℕ → ℕ → Option (Option ℕ × ℕ)
  | _, _, 0 => none
  | k, i, fuel + 1 =>
    let p := rnd k % 2 ^ (N / 2) ||| 1
    if p < coeff then probLoopP mr tests e N coeff rnd (k + 1) i fuel
    else if Nat.gcd (p - 1) e = 1 ∧ mr p tests = true then some (some p, k + 1)
    else if 5 * N / 2 ≤ i + 1 then some (none, k + 1)
    else probLoopP mr tests e N coeff rnd (k + 1) (i + 1) fuel

/-- The q-search loop of generateProbablePrimes (lines 138-155). -/
def probLoopQ (mr : ℕ → ℕ → Bool) (tests e N coeff p : ℕ) (rnd : ℕ → ℕ) :
    ℕ → ℕ → ℕ → Option (Option ℕ × ℕ)
  | _, _, 0 => none
  | k, i, fuel + 1 =>
    let q := rnd k % 2 ^ (N / 2) ||| 1
    if ((p : ℤ) - (q : ℤ)).natAbs ≤ 2 ^ (N / 2 - 100) then
      probLoopQ mr tests e N coeff p rnd (k + 1) i fuel
    else if q < coeff then probLoopQ mr tests e N coeff p rnd (k + 1) i fuel
    else if Nat.gcd (q - 1) e = 1 ∧ mr q tests = true then some (some q, k + 1)
    else if 5 * N / 2 ≤ i + 1 then some (none, k + 1)
    else probLoopQ mr tests e N coeff p rnd (k + 1) (i + 1) fuel

/-- generateProbablePrimes(e, N) (lines 92-157). -/
def generateProbablePrimes (mr : ℕ → ℕ → Bool) (mrT : ℕ → ℕ) (e N : ℕ)
    (rnd : ℕ → ℕ) (fuel : ℕ) : Option (Option (ℕ × ℕ)) :=
  if N ≠ 2048 ∧ N ≠ 3072 then some none
  else if e ≤ 2 ^ 16 ∨ 2 ^ 256 ≤ e ∨ e % 2 = 0 then some none
  else
    match probLoopP mr (mrT N) e N (coeff1 N) rnd 0 0 fuel with
    | none => none
    | some (none, _) => some none
    | some (some p, k) =>
      match probLoopQ mr (mrT N) e N (coeff1 N) p rnd k 0 fuel with
      | none => none
      | some (none, _) => some none
      | some (some q, _) => some (some (p, q))

/-! ### generateProbablePrimeWithAuxiliaryPrimes (lines 349-408, FIPS C.9) -/

/-- RSA.py line 380: xLowBorder = 665857 // 470832 * pow(2, N // 2 - 1)
(the Python operators are evaluated left to right). -/
def xLowBorder (N : ℕ) : ℕ := 665857 / 470832 * 2 ^ (N / 2 - 1)

/-- RSA.py line 381: xHighBorder = pow(2, N // 2) - 1. -/
def xHighBorder (N : ℕ) : ℕ := 2 ^ (N / 2) - 1

/-- Result of the inner loop of generateProbablePrimeWithAuxiliaryPrimes:
out = fuel exhausted while the Python loop was still running,
resample = the break on Y ≥ 2^(N/2) (back to the outer loop),
ret r = the function returns r. -/
inductive AuxInner where
  | out : AuxInner
  | resample : AuxInner
  | ret : Option (ℕ × ℕ) → AuxInner
deriving DecidableEq

/-- Inner loop (lines 396-408): steps 5-10 of FIPS C.9. -/
def genAuxInner (mr : ℕ → ℕ → Bool) (tests N e twoP1P2 X : ℕ) :
    ℕ → ℕ → ℕ → AuxInner
  | _, _, 0 => .out
  | Y, i, fuel + 1 =>
    if 2 ^ (N / 2) ≤ Y then .resample
    else if Nat.gcd (Y - 1) e = 1 ∧ mr Y tests = true then .ret (some (Y, X))
    else if 5 * (N / 2) ≤ i + 1 then .ret none
    else genAuxInner mr tests N e twoP1P2 X (Y + twoP1P2) (i + 1) fuel

/-- The X-draw loop (lines 385-387): draw, then redraw while out of range. -/
def genAuxDrawX (N xLow xHigh : ℕ) (rnd : ℕ → ℕ) : ℕ → ℕ → Option (ℕ × ℕ)
  | _, 0 => none
  | k, fuel + 1 =>
    let X := rnd k % 2 ^ (N / 2) ||| 2 ^ (N / 2 - 1)
    if X < xLow ∨ xHigh < X then genAuxDrawX N xLow xHigh rnd (k + 1) fuel
    else some (X, k + 1)

/-- Outer loop (lines 384-408). -/
def genAuxOuter (mr : ℕ → ℕ → Bool) (tests N e twoP1P2 : ℕ) (R : ℤ)
    (xLow xHigh : ℕ) (rnd : ℕ → ℕ) : ℕ → ℕ → Option (Option (ℕ × ℕ) × ℕ)
  | _, 0 => none
  | k, fuel + 1 =>
    match genAuxDrawX N xLow xHigh rnd k fuel with
    | none => none
    | some (X, k') =>
      let Y := ((X : ℤ) + (R - (X : ℤ)) % (twoP1P2 : ℤ)).toNat
      match genAuxInner mr tests N e twoP1P2 X Y 0 fuel with
      | .out => none
      | .ret r => some (r, k')
      | .resample => genAuxOuter mr tests N e twoP1P2 R xLow xHigh rnd k' fuel

/-- generateProbablePrimeWithAuxiliaryPrimes(p1, p2, N, e) (lines 349-408).
The Python assert on R is embedded as a check whose failure (an
AssertionError) is modelled by none, like the ValueError of pow(·, -1, ·). -/
def generateProbablePrimeWithAuxiliaryPrimes (mr : ℕ → ℕ → Bool) (mrT : ℕ → ℕ)
    (p1 p2 N e : ℕ) (rnd : ℕ → ℕ) (k fuel : ℕ) : Option (Option (ℕ × ℕ) × ℕ) :=
  let tests := mrT N
  if Nat.gcd (2 * p1) p2 ≠ 1 then some (none, k)
  else
    match computeR p1 p2 with
    | none => none
    | some R =>
      if R % ((2 * p1 : ℕ) : ℤ) = 1 ∧ R % ((p2 : ℕ) : ℤ) = (-1) % ((p2 : ℕ) : ℤ) then
        genAuxOuter mr tests N e (2 * p1 * p2) R (xLowBorder N) (xHighBorder N) rnd k fuel
      else none

/-! ### generateProvablePrimes (lines 29-89, FIPS B.3.2.2)

ifcProvablePrime is external; it is the parameter ifcPP, applied with the
same argument order as the Python call sites.  The embedding is
instrumented: together with the Python return value it returns the values
held by the local variables workingSeed, pSeed and qSeed at the moment of
the return (0 for a variable that is not bound yet at that point), so that
the zeroization claims can be stated. -/

/-- Step 7 loop of generateProvablePrimes (lines 72-83). -/
def provableLoop (ifcPP : ℕ → ℕ → ℕ → ℕ → ℕ → Option (ℕ × ℕ × ℕ × ℕ))
    (e N p pSeed : ℕ) : ℕ → ℕ → ℕ → Option (Option (ℕ × ℕ) × ℕ × ℕ × ℕ)
  | _, _, 0 => none
  | workingSeed, qSeedPrev, fuel + 1 =>
    match ifcPP (N / 2) 1 1 workingSeed e with
    | none => some (none, workingSeed, pSeed, qSeedPrev)
    | some (q, _, _, qSeed) =>
      if 2 ^ (N / 2 - 100) < ((p : ℤ) - (q : ℤ)).natAbs then
        some (some (p, q), 0, 0, 0)
      else provableLoop ifcPP e N p pSeed qSeed qSeed fuel

/-- generateProvablePrimes(e, N, seed), instrumented with the final values
of (workingSeed, pSeed, qSeed). -/
def generateProvablePrimes (secLvl : ℕ → ℕ)
    (ifcPP : ℕ → ℕ → ℕ → ℕ → ℕ → Option (ℕ × ℕ × ℕ × ℕ))
    (e N seed : ℕ) (fuel : ℕ) : Option (Option (ℕ × ℕ) × ℕ × ℕ × ℕ) :=
  if N ≠ 2048 ∧ N ≠ 3072 then some (none, 0, 0, 0)
  else if e ≤ 2 ^ 16 ∨ 2 ^ 256 ≤ e ∨ e % 2 = 0 then some (none, 0, 0, 0)
  else if pyBitLength seed ≠ 2 * secLvl N then some (none, 0, 0, 0)
  else
    match ifcPP (N / 2) 1 1 seed e with
    | none => some (none, seed, 0, 0)
    | some (_p, _, _, pSeed) => provableLoop ifcPP e N _p pSeed pSeed 0 fuel

/-! ### geneareteProvablePrimesWithConditions (lines 160-217, FIPS B.3.4)

getIFCSecurityLevel and getIFCAuxiliaryPrimesLegths are external; they are
the parameters secLvl and auxLens. -/

/-- Step 7 loop of geneareteProvablePrimesWithConditions (lines 203-211). -/
def provableCondLoop (ifcPP : ℕ → ℕ → ℕ → ℕ → ℕ → Option (ℕ × ℕ × ℕ × ℕ))
    (e N q1Len q2Len p : ℕ) : ℕ → ℕ → Option (Option (ℕ × ℕ))
  | _, 0 => none
  | workingSeed, fuel + 1 =>
    match ifcPP (N / 2) e workingSeed q1Len q2Len with
    | none => some none
    | some (q, _, _, qSeed) =>
      if 2 ^ (N / 2 - 100) < ((p : ℤ) - (q : ℤ)).natAbs then some (some (p, q))
      else provableCondLoop ifcPP e N q1Len q2Len p qSeed fuel

/-- geneareteProvablePrimesWithConditions(e, N, seed) (the source function
name carries this spelling). -/
def geneareteProvablePrimesWithConditions (secLvl : ℕ → ℕ) (auxLens : ℕ → ℕ × ℕ)
    (ifcPP : ℕ → ℕ → ℕ → ℕ → ℕ → Option (ℕ × ℕ × ℕ × ℕ))
    (e N seed : ℕ) (fuel : ℕ) : Option (Option (ℕ × ℕ)) :=
  if N ≠ 1024 ∧ N ≠ 2048 ∧ N ≠ 3072 then some none
  else if e ≤ 2 ^ 16 ∨ 2 ^ 256 ≤ e then some none
  else if pyBitLength seed ≠ 2 * secLvl N then some none
  else
    let lensP := auxLens N
    let lensQ := auxLens N
    match ifcPP (N / 2) e seed lensP.1 lensP.2 with
    | none => some none
    | some (p, _, _, pSeed) => provableCondLoop ifcPP e N lensQ.1 lensQ.2 p pSeed fuel

/-- Step 7 loop of geneareteProvablePrimesWithConditions (lines 203-211),
instrumented like provableLoop: the failure return carries the values held
by workingSeed, pSeed and qSeed at that point (the seed used for the
failing call, the p-call's seed, and the previous iteration's qSeed — 0
when not bound yet), the success return carries the zeroed values written
by lines 214-216. -/
def provableCondLoopInstr (ifcPP : ℕ → ℕ → ℕ → ℕ → ℕ → Option (ℕ × ℕ × ℕ × ℕ))
    (e N q1Len q2Len p pSeed : ℕ) : ℕ → ℕ → ℕ → Option (Option (ℕ × ℕ) × ℕ × ℕ × ℕ)
  | _, _, 0 => none
  | workingSeed, qSeedPrev, fuel + 1 =>
    match ifcPP (N / 2) e workingSeed q1Len q2Len with
    | none => some (none, workingSeed, pSeed, qSeedPrev)
    | some (q, _, _, qSeed) =>
      if 2 ^ (N / 2 - 100) < ((p : ℤ) - (q : ℤ)).natAbs then
        some (some (p, q), 0, 0, 0)
      else provableCondLoopInstr ifcPP e N q1Len q2Len p pSeed qSeed qSeed fuel

/-- geneareteProvablePrimesWithConditions(e, N, seed) (lines 160-217),
instrumented with the final values of (workingSeed, pSeed, qSeed) exactly
like the generateProvablePrimes embedding above; the un-instrumented
embedding of the same source lines is geneareteProvablePrimesWithConditions. -/
def geneareteProvablePrimesWithConditionsInstr (secLvl : ℕ → ℕ)
    (auxLens : ℕ → ℕ × ℕ)
    (ifcPP : ℕ → ℕ → ℕ → ℕ → ℕ → Option (ℕ × ℕ × ℕ × ℕ))
    (e N seed : ℕ) (fuel : ℕ) : Option (Option (ℕ × ℕ) × ℕ × ℕ × ℕ) :=
  if N ≠ 1024 ∧ N ≠ 2048 ∧ N ≠ 3072 then some (none, 0, 0, 0)
  else if e ≤ 2 ^ 16 ∨ 2 ^ 256 ≤ e then some (none, 0, 0, 0)
  else if pyBitLength seed ≠ 2 * secLvl N then some (none, 0, 0, 0)
  else
    let lensP := auxLens N
    let lensQ := auxLens N
    match ifcPP (N / 2) e seed lensP.1 lensP.2 with
    | none => some (none, seed, 0, 0)
    | some (p, _, _, pSeed) =>
      provableCondLoopInstr ifcPP e N lensQ.1 lensQ.2 p pSeed pSeed 0 fuel

/-! ### generateProbablePrimesWithConditions (lines 220-346, B.3.5/B.3.6)

primality.shaweTaylor is external; it is the parameter shaweTaylor,
returning (status, prime, primeSeed). -/

/-- The increment search of mode B.3.6 (lines 305-306, 321-322):
while not millerRabin(x, tests): x += 2. -/
def mrIncSearch (mr : ℕ → ℕ → Bool) (tests : ℕ) : ℕ → ℕ → Option ℕ
  | _, 0 => none
  | x, fuel + 1 => if mr x tests then some x else mrIncSearch mr tests (x + 2) fuel

/-- Step 6/7 loop of the seed-driven mode (lines 278-297). -/
def seedCondQLoop (mr : ℕ → ℕ → Bool) (mrT : ℕ → ℕ)
    (shaweTaylor : ℕ → ℕ → Bool × ℕ × ℕ)
    (q1Len q2Len N e p Xp : ℕ) (rnd : ℕ → ℕ) :
    ℕ → ℕ → ℕ → Option (Option (ℕ × ℕ))
  | _, _, 0 => none
  | primeSeed, k, fuel + 1 =>
    let r1 := shaweTaylor q1Len primeSeed
    if r1.1 = false then some none
    else
      let r2 := shaweTaylor q2Len r1.2.2
      if r2.1 = false then some none
      else
        match generateProbablePrimeWithAuxiliaryPrimes mr mrT r1.2.1 r2.2.1 N e rnd k fuel with
        | none => none
        | some (none, _) => some none
        | some (some (q, Xq), k') =>
          if 2 ^ (N / 2 - 100) < ((p : ℤ) - (q : ℤ)).natAbs ∧
              2 ^ (N / 2 - 100) < ((Xp : ℤ) - (Xq : ℤ)).natAbs then
            some (some (p, q))
          else seedCondQLoop mr mrT shaweTaylor q1Len q2Len N e p Xp rnd r2.2.2 k' fuel

/-- Step 5/6 loop of the direct-random mode (lines 314-331). -/
def directCondQLoop (mr : ℕ → ℕ → Bool) (mrT : ℕ → ℕ)
    (q1Len q2Len N e p Xp : ℕ) (rnd : ℕ → ℕ) :
    ℕ → ℕ → Option (Option (ℕ × ℕ))
  | _, 0 => none
  | k, fuel + 1 =>
    let Xq1o := rnd k % 2 ^ q1Len ||| 2 ^ (q1Len - 1) ||| 1
    let Xq2o := rnd (k + 1) % 2 ^ q2Len ||| 2 ^ (q2Len - 1) ||| 1
    match mrIncSearch mr (mrT N) Xq1o fuel with
    | none => none
    | some Xq1 =>
      match mrIncSearch mr (mrT N) Xq2o fuel with
      | none => none
      | some Xq2 =>
        match generateProbablePrimeWithAuxiliaryPrimes mr mrT Xq1 Xq2 N e rnd (k + 2) fuel with
        | none => none
        | some (none, _) => some none
        | some (some (q, Xq), k') =>
          if 2 ^ (N / 2 - 100) < ((p : ℤ) - (q : ℤ)).natAbs ∧
              2 ^ (N / 2 - 100) < ((Xp : ℤ) - (Xq : ℤ)).natAbs then
            some (some (p, q))
          else directCondQLoop mr mrT q1Len q2Len N e p Xp rnd k' fuel

/-- generateProbablePrimesWithConditions(e, N, seed, probablePrimes)
(lines 220-346).  The seed is an Option so that the Python call with
seed = None can be expressed; in the source the seed-length test on
line 255 short-circuits, so the seed is only touched when
probablePrimes is False. -/
def generateProbablePrimesWithConditions (mr : ℕ → ℕ → Bool) (mrT : ℕ → ℕ)
    (secLvl : ℕ → ℕ) (auxLens : ℕ → Bool → ℕ × ℕ)
    (shaweTaylor : ℕ → ℕ → Bool × ℕ × ℕ)
    (e N : ℕ) (seed : Option ℕ) (probablePrimes : Bool)
    (rnd : ℕ → ℕ) (fuel : ℕ) : Option (Option (ℕ × ℕ)) :=
  if N ≠ 1024 ∧ N ≠ 2048 ∧ N ≠ 3072 then some none
  else if e ≤ 2 ^ 16 ∨ 2 ^ 256 ≤ e then some none
  else if probablePrimes = false then
    match seed with
    | none => none
    | some s =>
      if pyBitLength s ≠ 2 * secLvl N then some none
      else
        let lensP := auxLens N false
        let lensQ := auxLens N false
        let r1 := shaweTaylor lensP.1 s
        if r1.1 = false then some none
        else
          let r2 := shaweTaylor lensP.2 r1.2.2
          if r2.1 = false then some none
          else
            match generateProbablePrimeWithAuxiliaryPrimes mr mrT r1.2.1 r2.2.1 N e rnd 0 fuel with
            | none => none
            | some (none, _) => some none
            | some (some (p, Xp), k') =>
              seedCondQLoop mr mrT shaweTaylor lensQ.1 lensQ.2 N e p Xp rnd r2.2.2 k' fuel
  else
    let lensP := auxLens N true
    let lensQ := auxLens N true
    let Xp1o := rnd 0 % 2 ^ lensP.1 ||| 2 ^ (lensP.1 - 1) ||| 1
    let Xp2o := rnd 1 % 2 ^ lensP.2 ||| 2 ^ (lensP.2 - 1) ||| 1
    match mrIncSearch mr (mrT N) Xp1o fuel with
    | none => none
    | some Xp1 =>
      match mrIncSearch mr (mrT N) Xp2o fuel with
      | none => none
      | some Xp2 =>
        match generateProbablePrimeWithAuxiliaryPrimes mr mrT Xp1 Xp2 N e rnd 2 fuel with
        | none => none
        | some (none, _) => some none
        | some (some (p, Xp), k') =>
          directCondQLoop mr mrT lensQ.1 lensQ.2 N e p Xp rnd k' fuel

/-! ### RSA primitives (lines 411-451)

Python integers may be negative, so the message/ciphertext arguments are ℤ.
Python pow(x, e, n) with n > 0 is modular exponentiation with a result in
[0, n); it is embedded by pyPowMod on the non-negative values admitted by
the range guard. -/

/-- encrypt(e, n, m) (lines 411-429). -/
def encrypt (e : ℕ) (n m : ℤ) : Option ℤ :=
  if m < 0 ∨ n - 1 < m then none
  else some ((pyPowMod m.toNat e n.toNat : ℕ) : ℤ)

/-- decrypt(d, n, c) (lines 432-451). -/
def decrypt (d : ℕ) (n c : ℤ) : Option ℤ :=
  if c < 0 ∨ n - 1 < c then none
  else some ((pyPowMod c.toNat d n.toNat : ℕ) : ℤ)

/-! ### Byte-level helpers of the OAEP codec

The ptCrypt.Math.base helpers are not among the shown sources.
Modelled from the spec: intToBytes(x, len?) converts an integer to
big-endian bytes (exactly len bytes when len is given, the minimal
encoding otherwise), bytesToInt is its inverse, byteLength(x) is the
number of bytes of the minimal encoding, and xor is byte-wise XOR.
Bytes objects are lists of naturals below 256. -/

/-- Modelled from the spec: base.intToBytes(x, len) — big-endian,
exactly len bytes (the low len bytes of x). -/
def natToBytesPadded (x : ℕ) : ℕ → List ℕ
  | 0 => []
  | len + 1 => natToBytesPadded (x / 256) len ++ [x % 256]

/-- Modelled from the spec: base.byteLength(x). -/
def byteLength (x : ℕ) : ℕ := (pyBitLength x + 7) / 8

/-- Modelled from the spec: base.intToBytes(x) — minimal big-endian encoding. -/
def intToBytes (x : ℕ) : List ℕ := natToBytesPadded x (byteLength x)

/-- Modelled from the spec: base.bytesToInt(b). -/
def bytesToInt (bs : List ℕ) : ℕ := bs.foldl (fun a b => a * 256 + b) 0

/-- Modelled from the spec: base.xor(a, b) — byte-wise XOR. -/
def xorBytes (a b : List ℕ) : List ℕ := List.zipWith (fun x y => x ^^^ y) a b

/-! ### MGF and the OAEP codec (lines 499-575)

The hash function is external and pluggable; it is the parameter pair
(hashF, hLen) — the function passed to oaepEncrypt/oaepDecrypt — while
(mgfH, mgfHLen) embeds hashlib.sha256, the default argument that MGF
always uses because the OAEP code never forwards its own hash to MGF. -/

/-- MGF(seed, len) (lines 561-574).  none models the explicit failure
return as well as the ZeroDivisionError when the digest size is 0. -/
def MGF (mgfH : List ℕ → List ℕ) (mgfHLen : ℕ) (seed : List ℕ) (len : ℕ) :
    Option (List ℕ) :=
  if 2 ^ 32 * mgfHLen < len then none
  else if mgfHLen = 0 then none
  else
    let top := len / mgfHLen + (if len % mgfHLen ≠ 0 then 1 else 0)
    some (((List.range top).foldl
      (fun t c => t ++ mgfH (seed ++ natToBytesPadded c 4)) []).take len)

/-- Python == between an int (a byte extracted by indexing) and a bytes
object: values of different types, always False. -/
def pyEqIntBytes (_x : ℕ) (_b : List ℕ) : Bool := false

/-- The padding scan of oaepDecrypt (lines 553-556):
while index < len(db): if db[index] == b"\x01": break;
if db[index] != b"\x00": return None — the index is never advanced. -/
def paddingScan (db : List ℕ) : ℕ → ℕ → Option ℕ
  | _, 0 => none
  | index, fuel + 1 =>
    if index < db.length then
      if pyEqIntBytes (db.getD index 0) [1] then some index
      else if pyEqIntBytes (db.getD index 0) [0] = false then none
      else paddingScan db index fuel
    else some index

/-- oaepEncrypt(e, n, message, label, hashFunction) (lines 499-523). -/
def oaepEncrypt (hashF : List ℕ → List ℕ) (hLen : ℕ)
    (mgfH : List ℕ → List ℕ) (mgfHLen : ℕ)
    (e n : ℕ) (message label : List ℕ) (rndSeed : ℕ) : Option (List ℕ) :=
  let nLen := (intToBytes n).length
  let mLen := message.length
  if (nLen : ℤ) - 2 * hLen - 2 < (mLen : ℤ) then none
  else
    let lHash := hashF label
    let ps := List.replicate (nLen - mLen - 2 * hLen - 2) 0
    let db := lHash ++ ps ++ [1] ++ message
    let seed := intToBytes (rndSeed % 2 ^ (hLen * 8))
    match MGF mgfH mgfHLen seed (nLen - hLen - 1) with
    | none => none
    | some dbMask =>
      let maskedDb := xorBytes db dbMask
      match MGF mgfH mgfHLen maskedDb hLen with
      | none => none
      | some seedMask =>
        let maskedSeed := xorBytes seed seedMask
        let em := 0 :: (maskedSeed ++ maskedDb)
        match encrypt e (n : ℤ) (bytesToInt em : ℤ) with
        | none => none
        | some c => some (natToBytesPadded c.toNat nLen)

/-- oaepDecrypt(d, n, ciphertext, label, hashFunction) (lines 526-558).
Uncaught Python exceptions on the way (TypeError from intToBytes(None, ·),
xor applied to None) are modelled by none, like the explicit failure
returns. -/
def oaepDecrypt (hashF : List ℕ → List ℕ) (hLen : ℕ)
    (mgfH : List ℕ → List ℕ) (mgfHLen : ℕ)
    (d n : ℕ) (ciphertext label : List ℕ) (scanFuel : ℕ) : Option (List ℕ) :=
  let nLen := byteLength n
  if ciphertext.length ≠ nLen then none
  else if nLen < 2 * hLen + 2 then none
  else
    match decrypt d (n : ℤ) (bytesToInt ciphertext : ℤ) with
    | none => none
    | some m =>
      let em := natToBytesPadded m.toNat nLen
      let lHash := hashF label
      let maskedSeed := (em.drop 1).take hLen
      let maskedDb := em.drop (1 + hLen)
      match MGF mgfH mgfHLen maskedDb hLen with
      | none => none
      | some seedMask =>
        let seed := xorBytes maskedSeed seedMask
        match MGF mgfH mgfHLen seed (nLen - hLen - 1) with
        | none => none
        | some dbMask =>
          let db := xorBytes maskedDb dbMask
          if lHash ≠ db.take hLen then none
          else
            match paddingScan db hLen scanFuel with
            | none => none
            | some index => some (db.drop (index + 1))

/-! ### Basic lemmas about the primitives -/

theorem bitLenF_zero (fuel : ℕ) : bitLenF fuel 0 = 0 := by
  cases fuel <;> simp [bitLenF]

theorem bitLenF_eq_log2 :
    ∀ fuel x, x ≠ 0 → x ≤ fuel → bitLenF fuel x = Nat.log2 x + 1 := by
  intro fuel
  induction fuel with
  | zero => intro x hx hle; omega
  | succ fuel ih =>
    intro x hx hle
    rw [bitLenF, if_neg hx]
    rcases Nat.lt_or_ge x 2 with h2 | h2
    · have hx1 : x = 1 := by omega
      subst hx1
      simp [bitLenF_zero, Nat.log2]
    · have hningt : x / 2 ≠ 0 := by
        have := Nat.div_le_div_right (c := 2) h2
        simp at this
        omega
      have hlef : x / 2 ≤ fuel := by
        have : x / 2 < x := Nat.div_lt_self (by omega) (by omega)
        omega
      rw [ih (x / 2) hningt hlef]
      conv_rhs => rw [Nat.log2]
      simp [h2]

theorem pyBitLength_eq_log2 (x : ℕ) (hx : x ≠ 0) :
    pyBitLength x = Nat.log2 x + 1 :=
  bitLenF_eq_log2 x x hx le_rfl

/-- Characterisation matching Python semantics: x has bit length k exactly
when 2^(k-1) ≤ x < 2^k (for k ≥ 1). -/
theorem pyBitLength_eq_of_bounds {x k : ℕ} (hk : 1 ≤ k)
    (hlo : 2 ^ (k - 1) ≤ x) (hhi : x < 2 ^ k) : pyBitLength x = k := by
  have hx : x ≠ 0 := by
    have : 0 < 2 ^ (k - 1) := Nat.pos_pow_of_pos _ (by omega)
    omega
  rw [pyBitLength_eq_log2 x hx]
  have h1 : k - 1 ≤ Nat.log2 x := (Nat.le_log2 hx).mpr hlo
  have h2 : Nat.log2 x < k := (Nat.log2_lt hx).mpr hhi
  omega

theorem powModAux_eq :
    ∀ fuel b e m, e ≤ fuel → powModAux fuel b e m = b ^ e % m := by
  intro fuel
  induction fuel with
  | zero =>
    intro b e m he
    have : e = 0 := by omega
    subst this
    simp [powModAux]
  | succ fuel ih =>
    intro b e m he
    rw [powModAux]
    by_cases he0 : e = 0
    · subst he0; simp
    · rw [if_neg he0]
      have hehalf : e / 2 ≤ fuel := by
        have : e / 2 < e := Nat.div_lt_self (by omega) (by omega)
        omega
      rw [ih (b * b % m) (e / 2) m hehalf]
      have hbb : (b * b % m) ^ (e / 2) % m = b ^ (2 * (e / 2)) % m := by
        rw [Nat.pow_mod, Nat.mod_mod_of_dvd _ dvd_rfl, ← Nat.pow_mod,
          ← pow_two, ← pow_mul]
      by_cases hpar : e % 2 = 1
      · rw [if_pos hpar, hbb, Nat.mul_mod, Nat.mod_mod_of_dvd _ dvd_rfl,
          ← Nat.mul_mod, ← pow_succ]
        congr 2
        omega
      · rw [if_neg hpar, hbb]
        congr 2
        omega

theorem pyPowMod_eq (b e m : ℕ) : pyPowMod b e m = b ^ e % m :=
  powModAux_eq e b e m le_rfl

theorem pyInvMod_spec {a m x : ℕ} (h : pyInvMod a m = some x) :
    a * x % m = 1 % m := by
  unfold pyInvMod at h
  by_cases hm : m = 0
  · simp [hm] at h
  · rw [if_neg hm] at h
    have := List.find?_some h
    simpa using this

theorem pyInvMod_isSome {a m : ℕ} (hm : m ≠ 0) (h : Nat.gcd a m = 1) :
    ∃ x, pyInvMod a m = some x := by
  rcases Nat.lt_or_ge m 2 with h1 | h2
  · have hm1 : m = 1 := by omega
    subst hm1
    exact ⟨0, by simp [pyInvMod]⟩
  · have hc : Nat.Coprime a m := h
    obtain ⟨y, hy⟩ := Nat.exists_mul_emod_eq_one_of_coprime hc h2
    have hmem : y % m ∈ List.range m := by
      simp [Nat.mod_lt _ (by omega : 0 < m)]
    have hpred : a * (y % m) % m = 1 % m := by
      have : a * (y % m) % m = a * y % m := by
        conv_rhs => rw [Nat.mul_mod]
        rw [Nat.mul_mod, Nat.mod_mod_of_dvd _ dvd_rfl]
      rw [this, hy, Nat.mod_eq_of_lt (by omega : 1 < m)]
    have : ((List.range m).find? (fun x => a * x % m = 1 % m)).isSome := by
      rw [List.find?_isSome]
      exact ⟨y % m, hmem, by simpa using hpred⟩
    obtain ⟨x, hx⟩ := Option.isSome_iff_exists.mp this
    exact ⟨x, by simpa [pyInvMod, hm] using hx⟩

/-- C10: under the checked precondition gcd(2·p1, p2) = 1 (with p1 ≥ 1, as
holds for every auxiliary prime the callers supply), both modular inverses
exist and the computed R satisfies R ≡ 1 (mod 2p1) and R ≡ −1 (mod p2), so
the assert in generateProbablePrimeWithAuxiliaryPrimes never fails. -/
theorem computeR_congruences (p1 p2 : ℕ) (hp1 : 1 ≤ p1)
    (hg : Nat.gcd (2 * p1) p2 = 1) :
    ∃ R, computeR p1 p2 = some R ∧
      R % ((2 * p1 : ℕ) : ℤ) = 1 ∧ R % ((p2 : ℕ) : ℤ) = (-1) % ((p2 : ℕ) : ℤ) := by
  have hm2 : 2 ≤ 2 * p1 := by omega
  have hmne : 2 * p1 ≠ 0 := by omega
  have hp2ne : p2 ≠ 0 := by
    intro h0
    rw [h0, Nat.gcd_zero_right] at hg
    omega
  have hga : Nat.gcd p2 (2 * p1) = 1 := by rwa [Nat.gcd_comm]
  obtain ⟨a, ha⟩ := pyInvMod_isSome hmne hga
  obtain ⟨b, hb⟩ := pyInvMod_isSome hp2ne hg
  have hA : p2 * a % (2 * p1) = 1 % (2 * p1) := pyInvMod_spec ha
  have hB : (2 * p1) * b % p2 = 1 % p2 := pyInvMod_spec hb
  refine ⟨(a : ℤ) * (p2 : ℤ) - (b : ℤ) * (2 * (p1 : ℤ)), ?_, ?_, ?_⟩
  · unfold computeR
    rw [ha, hb]
  · have hsplit : (a : ℤ) * (p2 : ℤ) - (b : ℤ) * (2 * (p1 : ℤ))
        = (a : ℤ) * (p2 : ℤ) + ((2 * p1 : ℕ) : ℤ) * (-(b : ℤ)) := by
      push_cast
      ring
    rw [hsplit, Int.add_mul_emod_self_left]
    have hcast : ((a : ℤ) * (p2 : ℤ)) % ((2 * p1 : ℕ) : ℤ)
        = (((p2 * a) % (2 * p1) : ℕ) : ℤ) := by
      rw [Int.ofNat_emod]
      push_cast
      ring_nf
    rw [hcast, hA, Nat.mod_eq_of_lt (by omega : 1 < 2 * p1)]
    rfl
  · have hsplit : (a : ℤ) * (p2 : ℤ) - (b : ℤ) * (2 * (p1 : ℤ))
        = -((b : ℤ) * (2 * (p1 : ℤ))) + ((p2 : ℕ) : ℤ) * (a : ℤ) := by
      ring
    rw [hsplit, Int.add_mul_emod_self_left]
    have hmod : ((b : ℤ) * (2 * (p1 : ℤ))) % ((p2 : ℕ) : ℤ)
        = (1 : ℤ) % ((p2 : ℕ) : ℤ) := by
      have hcast : ((b : ℤ) * (2 * (p1 : ℤ))) % ((p2 : ℕ) : ℤ)
          = ((((2 * p1) * b) % p2 : ℕ) : ℤ) := by
        rw [Int.ofNat_emod]
        push_cast
        ring_nf
      rw [hcast, hB, Int.ofNat_emod]
      push_cast
      rfl
    have hcong : ((b : ℤ) * (2 * (p1 : ℤ))) ≡ 1 [ZMOD ((p2 : ℕ) : ℤ)] := hmod
    have := hcong.neg
    simpa [Int.ModEq] using this

/-! ### C1: postconditions of generateProbablePrimes -/

theorem coeff1_ge (N : ℕ) : 2 ^ (N / 2 - 1) ≤ coeff1 N := by
  unfold coeff1
  rw [Nat.le_div_iff_mul_le (by norm_num : 0 < 470832), mul_comm]
  exact Nat.mul_le_mul_right _ (by norm_num)

theorem probLoopP_success {mr : ℕ → ℕ → Bool} {tests e N coeff : ℕ}
    {rnd : ℕ → ℕ} (hN : 1 ≤ N / 2) :
    ∀ {fuel k i p k'},
      probLoopP mr tests e N coeff rnd k i fuel = some (some p, k') →
      coeff ≤ p ∧ p < 2 ^ (N / 2) ∧ Nat.gcd (p - 1) e = 1 ∧ mr p tests = true := by
  intro fuel
  induction fuel with
  | zero => intro k i p k' h; simp [probLoopP] at h
  | succ fuel ih =>
    intro k i p k' h
    simp only [probLoopP] at h
    split_ifs at h with h1 h2 h3
    · exact ih h
    · have hp : rnd k % 2 ^ (N / 2) ||| 1 = p := by
        simpa using congrArg (fun r => (Prod.fst r).getD 0) (Option.some_injective _ h)
      refine ⟨?_, ?_, ?_, ?_⟩
      · rw [← hp]; exact Nat.le_of_not_lt (hp ▸ h1)
      · rw [← hp]
        exact Nat.or_lt_two_pow (Nat.mod_lt _ (Nat.pos_pow_of_pos _ (by omega)))
          (Nat.one_lt_two_pow (by omega))
      · exact hp ▸ h2.1
      · exact hp ▸ h2.2
    · simp at h
    · exact ih h

theorem probLoopQ_success {mr : ℕ → ℕ → Bool} {tests e N coeff p : ℕ}
    {rnd : ℕ → ℕ} (hN : 1 ≤ N / 2) :
    ∀ {fuel k i q k'},
      probLoopQ mr tests e N coeff p rnd k i fuel = some (some q, k') →
      2 ^ (N / 2 - 100) < ((p : ℤ) - (q : ℤ)).natAbs ∧
      coeff ≤ q ∧ q < 2 ^ (N / 2) ∧ Nat.gcd (q - 1) e = 1 ∧ mr q tests = true := by
  intro fuel
  induction fuel with
  | zero => intro k i q k' h; simp [probLoopQ] at h
  | succ fuel ih =>
    intro k i q k' h
    simp only [probLoopQ] at h
    split_ifs at h with h1 h2 h3 h4
    · exact ih h
    · exact ih h
    · have hq : rnd k % 2 ^ (N / 2) ||| 1 = q := by
        simpa using congrArg (fun r => (Prod.fst r).getD 0) (Option.some_injective _ h)
      refine ⟨?_, ?_, ?_, ?_, ?_⟩
      · exact hq ▸ Nat.lt_of_not_le (hq ▸ h1)
      · rw [← hq]; exact Nat.le_of_not_lt (hq ▸ h2)
      · rw [← hq]
        exact Nat.or_lt_two_pow (Nat.mod_lt _ (Nat.pos_pow_of_pos _ (by omega)))
          (Nat.one_lt_two_pow (by omega))
      · exact hq ▸ h3.1
      · exact hq ▸ h3.2
    · simp at h
    · exact ih h

/-- C1: whenever generateProbablePrimes(e, N) returns a pair (p, q), both
have passed the Miller-Rabin test with millerRabinTestsForIFC(N) rounds,
gcd(p − 1, e) = gcd(q − 1, e) = 1, |p − q| > 2^(N/2 − 100), and the bit
lengths of p and q are exactly N/2. -/
theorem generateProbablePrimes_success
    (mr : ℕ → ℕ → Bool) (mrT : ℕ → ℕ) (e N : ℕ) (rnd : ℕ → ℕ) (fuel : ℕ)
    (p q : ℕ)
    (h : generateProbablePrimes mr mrT e N rnd fuel = some (some (p, q))) :
    mr p (mrT N) = true ∧ mr q (mrT N) = true ∧
      Nat.gcd (p - 1) e = 1 ∧ Nat.gcd (q - 1) e = 1 ∧
      2 ^ (N / 2 - 100) < ((p : ℤ) - (q : ℤ)).natAbs ∧
      pyBitLength p = N / 2 ∧ pyBitLength q = N / 2 := by
  unfold generateProbablePrimes at h
  split_ifs at h with hN he
  · simp at h
  · simp at h
  · have hN' : N = 2048 ∨ N = 3072 := by tauto
    have hL : 1 ≤ N / 2 := by rcases hN' with h' | h' <;> subst h' <;> norm_num
    rcases hP : probLoopP mr (mrT N) e N (coeff1 N) rnd 0 0 fuel with _ | ⟨op, k⟩
    · rw [hP] at h; simp at h
    · rw [hP] at h
      rcases op with _ | p'
      · simp at h
      · dsimp only at h
        rcases hQ : probLoopQ mr (mrT N) e N (coeff1 N) p' rnd k 0 fuel with _ | ⟨oq, k2⟩
        · rw [hQ] at h; simp at h
        · rw [hQ] at h
          rcases oq with _ | q'
          · simp at h
          · simp only [Option.some.injEq, Prod.mk.injEq] at h
            obtain ⟨hp', hq'⟩ := h
            subst hp'; subst hq'
            obtain ⟨hc1, hlt1, hg1, hmr1⟩ := probLoopP_success hL hP
            obtain ⟨hd, hc2, hlt2, hg2, hmr2⟩ := probLoopQ_success hL hQ
            refine ⟨hmr1, hmr2, hg1, hg2, hd, ?_, ?_⟩
            · exact pyBitLength_eq_of_bounds hL (le_trans (coeff1_ge N) hc1) hlt1
            · exact pyBitLength_eq_of_bounds hL (le_trans (coeff1_ge N) hc2) hlt2

/-- Witness for C1: a concrete successful run at e = 65537, N = 2048. -/
theorem generateProbablePrimes_success_witness :
    true = true ∧ true = true ∧
      Nat.gcd (2 ^ 1024 - 1 - 1) 65537 = 1 ∧
      Nat.gcd (7 * 2 ^ 1021 + 1 - 1) 65537 = 1 ∧
      2 ^ (2048 / 2 - 100) <
        (((2 ^ 1024 - 1 : ℕ) : ℤ) - ((7 * 2 ^ 1021 + 1 : ℕ) : ℤ)).natAbs ∧
      pyBitLength (2 ^ 1024 - 1) = 2048 / 2 ∧
      pyBitLength (7 * 2 ^ 1021 + 1) = 2048 / 2 :=
  generateProbablePrimes_success (fun _ _ => true) (fun _ => 1) 65537 2048
    (fun k => if k = 0 then 2 ^ 1024 - 1 else 7 * 2 ^ 1021) 1
    (2 ^ 1024 - 1) (7 * 2 ^ 1021 + 1) (by decide)

/-! ### C2: iteration caps -/

theorem probLoopP_const_zero (mr : ℕ → ℕ → Bool) (tests e N coeff : ℕ)
    (h1 : 1 < coeff) :
    ∀ fuel k i, probLoopP mr tests e N coeff (fun _ => 0) k i fuel = none := by
  intro fuel
  induction fuel with
  | zero => intro k i; rfl
  | succ fuel ih =>
    intro k i
    have h0 : (fun _ : ℕ => (0 : ℕ)) k % 2 ^ (N / 2) ||| 1 = 1 := by
      simp
    simp only [probLoopP, h0, if_pos h1]
    exact ih (k + 1) i

/-- C2 counterexample: with e = 65537, N = 2048 and a random stream that
always returns 0, every candidate p = 1 fails the p ≥ coeff1 pre-check,
which re-runs the loop without advancing the counter i; the loop therefore
outlives the fuel 5·2048/2 + 2 = 5122, although a cap of 5·L counting
every iteration would have forced a return by then.  (The same stream keeps
the loop running for every fuel value.) -/
theorem generateProbablePrimes_not_capped :
    generateProbablePrimes (fun _ _ => true) (fun _ => 1) 65537 2048 (fun _ => 0)
      (5 * 2048 / 2 + 2) = none := by
  have h1 : 1 < coeff1 2048 := by decide
  rw [generateProbablePrimes, if_neg (by decide), if_neg (by decide),
    probLoopP_const_zero _ _ _ _ _ h1]

/-- C2 amended: the candidate-testing loops return within their 5·(N/2)
cap, but the counter advances only on iterations that reach the gcd /
Miller-Rabin stage: (a) the p-loop terminates when every draw passes the
p ≥ coeff1 pre-check, (b) the q-loop terminates when every draw passes the
distance and coeff1 pre-checks, and (c) the inner loop of
generateProbablePrimeWithAuxiliaryPrimes, which counts every iteration,
terminates unconditionally. -/
theorem searchLoops_cap :
    (∀ (mr : ℕ → ℕ → Bool) (tests e N coeff : ℕ) (rnd : ℕ → ℕ) (k i fuel : ℕ),
        i < 5 * N / 2 → 5 * N / 2 ≤ i + fuel →
        (∀ j, ¬ rnd j % 2 ^ (N / 2) ||| 1 < coeff) →
        probLoopP mr tests e N coeff rnd k i fuel ≠ none) ∧
    (∀ (mr : ℕ → ℕ → Bool) (tests e N coeff p : ℕ) (rnd : ℕ → ℕ) (k i fuel : ℕ),
        i < 5 * N / 2 → 5 * N / 2 ≤ i + fuel →
        (∀ j, ¬ ((p : ℤ) - ((rnd j % 2 ^ (N / 2) ||| 1 : ℕ) : ℤ)).natAbs ≤ 2 ^ (N / 2 - 100) ∧
          ¬ rnd j % 2 ^ (N / 2) ||| 1 < coeff) →
        probLoopQ mr tests e N coeff p rnd k i fuel ≠ none) ∧
    (∀ (mr : ℕ → ℕ → Bool) (tests N e twoP1P2 X Y i fuel : ℕ),
        i < 5 * (N / 2) → 5 * (N / 2) ≤ i + fuel →
        genAuxInner mr tests N e twoP1P2 X Y i fuel ≠ AuxInner.out) := by
  refine ⟨?_, ?_, ?_⟩
  · intro mr tests e N coeff rnd k i fuel
    induction fuel generalizing k i with
    | zero => intro hi hf _; omega
    | succ fuel ih =>
      intro hi hf hno
      simp only [probLoopP]
      rw [if_neg (hno k)]
      split_ifs with h2 h3
      · simp
      · simp
      · exact ih (k + 1) (i + 1) (by omega) (by omega) hno
  · intro mr tests e N coeff p rnd k i fuel
    induction fuel generalizing k i with
    | zero => intro hi hf _; omega
    | succ fuel ih =>
      intro hi hf hno
      simp only [probLoopQ]
      rw [if_neg (hno k).1, if_neg (hno k).2]
      split_ifs with h3 h4
      · simp
      · simp
      · exact ih (k + 1) (i + 1) (by omega) (by omega) hno
  · intro mr tests N e twoP1P2 X Y i fuel
    induction fuel generalizing Y i with
    | zero => intro hi hf; omega
    | succ fuel ih =>
      intro hi hf
      simp only [genAuxInner]
      split_ifs with h1 h2 h3
      · simp
      · simp
      · simp
      · exact ih (Y + twoP1P2) (i + 1) (by omega) (by omega)

/-- Witness for the amended C2 at small concrete inputs. -/
theorem searchLoops_cap_witness :
    probLoopP (fun _ _ => false) 0 1 4 0 (fun _ => 3) 0 0 10 ≠ none ∧
    probLoopQ (fun _ _ => false) 0 1 4 0 100 (fun _ => 3) 0 0 10 ≠ none ∧
    genAuxInner (fun _ _ => false) 0 4 1 5 9 9 0 11 ≠ AuxInner.out :=
  ⟨searchLoops_cap.1 (fun _ _ => false) 0 1 4 0 (fun _ => 3) 0 0 10
      (by decide) (by decide) (fun j => Nat.not_lt_zero _),
    searchLoops_cap.2.1 (fun _ _ => false) 0 1 4 0 100 (fun _ => 3) 0 0 10
      (by decide) (by decide)
      (fun j =>
        ⟨show ¬ (((100 : ℕ) : ℤ) - ((3 % 2 ^ (4 / 2) ||| 1 : ℕ) : ℤ)).natAbs ≤
            2 ^ (4 / 2 - 100) by decide,
          Nat.not_lt_zero _⟩),
    searchLoops_cap.2.2 (fun _ _ => false) 0 4 1 5 9 9 0 11 (by decide) (by decide)⟩

/-! ### C3: the combiner's lower bound -/

/-- C3 (code-bug evidence): the bound computed on line 380 evaluates left
to right, so xLowBorder = (665857 // 470832) · 2^(L−1) = 2^(L−1), strictly
below the quantity coeff1 = ⌊665857 · 2^(L−1) / 470832⌋ the claim names;
consequently the combiner accepts and returns the witness X = 2^1023,
which violates coeff1 ≤ X. -/
theorem combiner_lower_bound_bug :
    xLowBorder 2048 = 2 ^ 1023 ∧ 2 ^ 1023 < coeff1 2048 ∧
    generateProbablePrimeWithAuxiliaryPrimes (fun _ _ => true) (fun _ => 1)
        2 3 2048 65537 (fun _ => 0) 0 2
      = some (some (2 ^ 1023 + 9, 2 ^ 1023), 1) :=
  ⟨by decide, by decide, by decide⟩

/-! ### C4: entry validation of the WithConditions generators -/

/-- C4 (code-bug evidence): neither WithConditions generator tests the
parity of e.  With the even e = 2^17 and a valid 224-bit seed,
geneareteProvablePrimesWithConditions runs past entry validation and (for
this provable-prime oracle) returns a pair instead of failing. -/
theorem evenExponentNotRejected :
    geneareteProvablePrimesWithConditions (fun _ => 112) (fun _ => (1, 1))
        (fun _ _ s _ _ => if s = 2 ^ 223 then some (2 ^ 1024, 1, 1, 1) else some (1, 1, 1, 1))
        (2 ^ 17) 2048 (2 ^ 223) 2
      = some (some (2 ^ 1024, 1)) ∧ 2 ^ 17 % 2 = 0 :=
  ⟨by decide, by decide⟩

/-! ### C7: zeroization of seed variables -/

/-- C7 counterexample: when the first call of the provable-prime oracle
fails, generateProvablePrimes — and likewise
geneareteProvablePrimesWithConditions — returns None while its workingSeed
variable still holds the (non-zero) input seed: no zeroization happens on
these early failure paths. -/
theorem zeroization_missing_on_failure :
    generateProvablePrimes (fun _ => 112) (fun _ _ _ _ _ => none)
        65537 2048 (2 ^ 223) 1
      = some (none, 2 ^ 223, 0, 0) ∧
    geneareteProvablePrimesWithConditionsInstr (fun _ => 112) (fun _ => (1, 1))
        (fun _ _ _ _ _ => none) 65537 2048 (2 ^ 223) 1
      = some (none, 2 ^ 223, 0, 0) ∧
    (2 ^ 223 : ℕ) ≠ 0 :=
  ⟨by decide, by decide, by decide⟩

theorem provableLoop_success
    {ifcPP : ℕ → ℕ → ℕ → ℕ → ℕ → Option (ℕ × ℕ × ℕ × ℕ)}
    {e N p0 ps0 : ℕ} :
    ∀ {fuel ws0 qs0 p q ws ps qs},
      provableLoop ifcPP e N p0 ps0 ws0 qs0 fuel = some (some (p, q), ws, ps, qs) →
      ws = 0 ∧ ps = 0 ∧ qs = 0 := by
  intro fuel
  induction fuel with
  | zero => intro ws0 qs0 p q ws ps qs h; simp [provableLoop] at h
  | succ fuel ih =>
    intro ws0 qs0 p q ws ps qs h
    rw [provableLoop] at h
    rcases ho : ifcPP (N / 2) 1 1 ws0 e with _ | ⟨q', _, _, qSeed⟩
    · rw [ho] at h; simp at h
    · rw [ho] at h
      dsimp only at h
      split_ifs at h with hd
      · simp only [Option.some.injEq, Prod.mk.injEq] at h
        exact ⟨h.2.1.symm, h.2.2.1.symm, h.2.2.2.symm⟩
      · exact ih h

theorem provableCondLoopInstr_success
    {ifcPP : ℕ → ℕ → ℕ → ℕ → ℕ → Option (ℕ × ℕ × ℕ × ℕ)}
    {e N q1Len q2Len p0 ps0 : ℕ} :
    ∀ {fuel ws0 qs0 p q ws ps qs},
      provableCondLoopInstr ifcPP e N q1Len q2Len p0 ps0 ws0 qs0 fuel
        = some (some (p, q), ws, ps, qs) →
      ws = 0 ∧ ps = 0 ∧ qs = 0 := by
  intro fuel
  induction fuel with
  | zero => intro ws0 qs0 p q ws ps qs h; simp [provableCondLoopInstr] at h
  | succ fuel ih =>
    intro ws0 qs0 p q ws ps qs h
    rw [provableCondLoopInstr] at h
    rcases ho : ifcPP (N / 2) e ws0 q1Len q2Len with _ | ⟨q', _, _, qSeed⟩
    · rw [ho] at h; simp at h
    · rw [ho] at h
      dsimp only at h
      split_ifs at h with hd
      · simp only [Option.some.injEq, Prod.mk.injEq] at h
        exact ⟨h.2.1.symm, h.2.2.1.symm, h.2.2.2.symm⟩
      · exact ih h

/-- C7 amended: generateProvablePrimes and
geneareteProvablePrimesWithConditions zero workingSeed, pSeed and qSeed on
the successful return path only; the early failure returns skip the
zeroing assignments and return with the seed variables holding their
current values, as the counterexample shows. -/
theorem zeroization_on_success :
    (∀ (secLvl : ℕ → ℕ)
        (ifcPP : ℕ → ℕ → ℕ → ℕ → ℕ → Option (ℕ × ℕ × ℕ × ℕ))
        (e N seed fuel p q ws ps qs : ℕ),
      generateProvablePrimes secLvl ifcPP e N seed fuel
          = some (some (p, q), ws, ps, qs) →
        ws = 0 ∧ ps = 0 ∧ qs = 0) ∧
    (∀ (secLvl : ℕ → ℕ) (auxLens : ℕ → ℕ × ℕ)
        (ifcPP : ℕ → ℕ → ℕ → ℕ → ℕ → Option (ℕ × ℕ × ℕ × ℕ))
        (e N seed fuel p q ws ps qs : ℕ),
      geneareteProvablePrimesWithConditionsInstr secLvl auxLens ifcPP e N seed fuel
          = some (some (p, q), ws, ps, qs) →
        ws = 0 ∧ ps = 0 ∧ qs = 0) := by
  constructor
  · intro secLvl ifcPP e N seed fuel p q ws ps qs h
    unfold generateProvablePrimes at h
    split_ifs at h with h1 h2 h3
    · simp at h
    · simp at h
    · simp at h
    · rcases ho : ifcPP (N / 2) 1 1 seed e with _ | ⟨p', _, _, pSeed⟩
      · rw [ho] at h; simp at h
      · rw [ho] at h
        dsimp only at h
        exact provableLoop_success h
  · intro secLvl auxLens ifcPP e N seed fuel p q ws ps qs h
    unfold geneareteProvablePrimesWithConditionsInstr at h
    split_ifs at h with h1 h2 h3
    · simp at h
    · simp at h
    · simp at h
    · dsimp only at h
      rcases ho : ifcPP (N / 2) e seed (auxLens N).1 (auxLens N).2
          with _ | ⟨p', _, _, pSeed⟩
      · rw [ho] at h; simp at h
      · rw [ho] at h
        dsimp only at h
        exact provableCondLoopInstr_success h

/-- Witness for the amended C7: a concrete successful run of each
generator ends with all three seed variables zero. -/
theorem zeroization_on_success_witness :
    (generateProvablePrimes (fun _ => 112)
        (fun _ _ _ s _ => if s = 2 ^ 223 then some (2 ^ 1024, 1, 1, 5) else some (1, 1, 1, 6))
        65537 2048 (2 ^ 223) 1
      = some (some (2 ^ 1024, 1), 0, 0, 0) ∧
      ((0 : ℕ) = 0 ∧ (0 : ℕ) = 0 ∧ (0 : ℕ) = 0)) ∧
    (geneareteProvablePrimesWithConditionsInstr (fun _ => 112) (fun _ => (1, 1))
        (fun _ _ s _ _ => if s = 2 ^ 223 then some (2 ^ 1024, 1, 1, 5) else some (1, 1, 1, 6))
        65537 2048 (2 ^ 223) 1
      = some (some (2 ^ 1024, 1), 0, 0, 0) ∧
      ((0 : ℕ) = 0 ∧ (0 : ℕ) = 0 ∧ (0 : ℕ) = 0)) :=
  ⟨⟨by decide,
      zeroization_on_success.1 (fun _ => 112)
        (fun _ _ _ s _ => if s = 2 ^ 223 then some (2 ^ 1024, 1, 1, 5) else some (1, 1, 1, 6))
        65537 2048 (2 ^ 223) 1 (2 ^ 1024) 1 0 0 0 (by decide)⟩,
    ⟨by decide,
      zeroization_on_success.2 (fun _ => 112) (fun _ => (1, 1))
        (fun _ _ s _ _ => if s = 2 ^ 223 then some (2 ^ 1024, 1, 1, 5) else some (1, 1, 1, 6))
        65537 2048 (2 ^ 223) 1 (2 ^ 1024) 1 0 0 0 (by decide)⟩⟩

/-! ### C9: the seed is ignored in DirectRandom mode -/

/-- C9: with probablePrimes = True, generateProbablePrimesWithConditions
never reads its seed argument: two runs with the same e, N, oracle
parameters and random stream but arbitrary seeds (including None) return
the same result. -/
theorem directRandom_seed_ignored (mr : ℕ → ℕ → Bool) (mrT secLvl : ℕ → ℕ)
    (auxLens : ℕ → Bool → ℕ × ℕ) (shaweTaylor : ℕ → ℕ → Bool × ℕ × ℕ)
    (e N : ℕ) (seed1 seed2 : Option ℕ) (rnd : ℕ → ℕ) (fuel : ℕ) :
    generateProbablePrimesWithConditions mr mrT secLvl auxLens shaweTaylor
        e N seed1 true rnd fuel
      = generateProbablePrimesWithConditions mr mrT secLvl auxLens shaweTaylor
        e N seed2 true rnd fuel := rfl

/-! ### C8: the RSA primitives -/

theorem pow_totient_aux {p : ℕ} (hp : p.Prime) {ed : ℕ}
    (hdvd : (p - 1) ∣ (ed - 1)) (hed : 1 ≤ ed) (M : ℕ) :
    M ^ ed ≡ M [MOD p] := by
  haveI : Fact p.Prime := ⟨hp⟩
  obtain ⟨k, hk⟩ := hdvd
  have hed' : ed = (p - 1) * k + 1 := by omega
  rw [← ZMod.natCast_eq_natCast_iff]
  push_cast
  set a : ZMod p := (M : ZMod p) with ha
  by_cases h0 : a = 0
  · rw [h0, zero_pow (by omega : ed ≠ 0)]
  · rw [hed', pow_add, pow_mul, pow_one, ZMod.pow_card_sub_one_eq_one h0, one_pow,
      one_mul]

/-- C8: encrypt and decrypt return None exactly when the integer argument
is outside [0, n − 1], and for a key with n = p·q (p, q distinct primes)
and e·d ≡ 1 (mod lcm(p − 1, q − 1)), decrypting an encryption of any
m ∈ [0, n − 1] returns m. -/
theorem rsa_roundtrip :
    (∀ (e : ℕ) (n m : ℤ), encrypt e n m = none ↔ (m < 0 ∨ n - 1 < m)) ∧
    (∀ (d : ℕ) (n c : ℤ), decrypt d n c = none ↔ (c < 0 ∨ n - 1 < c)) ∧
    (∀ (p q e d : ℕ) (m : ℤ), p.Prime → q.Prime → p ≠ q →
      e * d ≡ 1 [MOD Nat.lcm (p - 1) (q - 1)] →
      0 ≤ m → m ≤ ((p * q : ℕ) : ℤ) - 1 →
      (encrypt e ((p * q : ℕ) : ℤ) m).bind (decrypt d ((p * q : ℕ) : ℤ)) = some m) := by
  refine ⟨?_, ?_, ?_⟩
  · intro e n m; unfold encrypt; split_ifs with h <;> simp [h]
  · intro d n c; unfold decrypt; split_ifs with h <;> simp [h]
  · intro p q e d m hp hq hpq hed hm0 hm1
    set n : ℕ := p * q with hn
    have hp2 : 2 ≤ p := hp.two_le
    have hq2 : 2 ≤ q := hq.two_le
    have hnpos : 0 < n := by positivity
    have hmn : m < (n : ℤ) := by omega
    set M : ℕ := m.toNat with hM
    have hmM : (M : ℤ) = m := Int.toNat_of_nonneg hm0
    have hMn : M < n := by omega
    -- the exponent e·d is positive and ≡ 1 modulo both p − 1 and q − 1
    have hed1 : 1 ≤ e * d := by
      by_contra h
      have h0 : e * d = 0 := by omega
      rw [h0] at hed
      have h2 : (p - 1).lcm (q - 1) ∣ 1 := by
        have := (Nat.modEq_iff_dvd' (by omega : 0 ≤ 1)).mp hed
        simpa using this
      have h3 : p - 1 ∣ 1 := dvd_trans (Nat.dvd_lcm_left _ _) h2
      have h4 : q - 1 ∣ 1 := dvd_trans (Nat.dvd_lcm_right _ _) h2
      have := Nat.le_of_dvd (by omega) h3
      have := Nat.le_of_dvd (by omega) h4
      have hpeq : p = 2 := by omega
      have hqeq : q = 2 := by omega
      exact hpq (hpeq.trans hqeq.symm)
    have hedp : (p - 1) ∣ (e * d - 1) :=
      (Nat.modEq_iff_dvd' hed1).mp (hed.of_dvd (Nat.dvd_lcm_left _ _)).symm
    have hedq : (q - 1) ∣ (e * d - 1) :=
      (Nat.modEq_iff_dvd' hed1).mp (hed.of_dvd (Nat.dvd_lcm_right _ _)).symm
    have hfermat : M ^ (e * d) ≡ M [MOD n] := by
      have hco : Nat.Coprime p q := (Nat.coprime_primes hp hq).mpr hpq
      exact (Nat.modEq_and_modEq_iff_modEq_mul hco).mp
        ⟨pow_totient_aux hp hedp hed1 M, pow_totient_aux hq hedq hed1 M⟩
    -- evaluate the composition
    have henc : encrypt e (n : ℤ) m
        = some ((pyPowMod M e n : ℕ) : ℤ) := by
      unfold encrypt
      rw [if_neg (by push_neg; omega)]
      simp [Int.toNat_natCast, ← hM]
    rw [henc]
    have hclt : M ^ e % n < n := Nat.mod_lt _ hnpos
    have hdec : decrypt d (n : ℤ) ((pyPowMod M e n : ℕ) : ℤ)
        = some (((pyPowMod (M ^ e % n) d n : ℕ) : ℤ)) := by
      unfold decrypt
      rw [pyPowMod_eq M e n]
      rw [if_neg (by push_neg; omega)]
      simp only [Int.toNat_natCast]
    simp only [Option.some_bind]
    rw [hdec, pyPowMod_eq]
    have hfinal : (M ^ e % n) ^ d % n = M := by
      rw [Nat.pow_mod, Nat.mod_mod_of_dvd _ dvd_rfl, ← Nat.pow_mod, ← pow_mul]
      calc M ^ (e * d) % n = M % n := hfermat
        _ = M := Nat.mod_eq_of_lt hMn
    rw [hfinal, hmM]

/-- Witness for C8: the key p = 3, q = 5, e = d = 3 round-trips m = 7. -/
theorem rsa_roundtrip_witness :
    (encrypt 3 ((3 * 5 : ℕ) : ℤ) 7).bind (decrypt 3 ((3 * 5 : ℕ) : ℤ)) = some 7 :=
  rsa_roundtrip.2.2 3 5 3 3 7 (by norm_num) (by norm_num) (by decide)
    (by decide) (by decide) (by decide)

/-! ### C6: oaepDecrypt never returns a message -/

theorem natToBytesPadded_length (x len : ℕ) :
    (natToBytesPadded x len).length = len := by
  induction len generalizing x with
  | zero => rfl
  | succ len ih => simp [natToBytesPadded, ih]

theorem mgfFold_length {mgfH : List ℕ → List ℕ} {mgfHLen : ℕ} {seed : List ℕ}
    (hH : ∀ bs, (mgfH bs).length = mgfHLen) :
    ∀ (l : List ℕ) (init : List ℕ),
      ((l.foldl (fun t c => t ++ mgfH (seed ++ natToBytesPadded c 4)) init)).length
        = init.length + l.length * mgfHLen := by
  intro l
  induction l with
  | nil => intro init; simp
  | cons c l ih =>
    intro init
    simp only [List.foldl_cons, ih, List.length_append, hH, List.length_cons]
    ring

theorem MGF_length {mgfH : List ℕ → List ℕ} {mgfHLen : ℕ} {seed : List ℕ}
    {len : ℕ} {out : List ℕ} (hH : ∀ bs, (mgfH bs).length = mgfHLen)
    (h : MGF mgfH mgfHLen seed len = some out) : out.length = len := by
  by_cases h1 : 2 ^ 32 * mgfHLen < len
  · rw [MGF, if_pos h1] at h
    exact absurd h (by simp)
  · by_cases h2 : mgfHLen = 0
    · rw [MGF, if_neg h1, if_pos h2] at h
      exact absurd h (by simp)
    · rw [MGF, if_neg h1, if_neg h2] at h
      have hpos : 0 < mgfHLen := Nat.pos_of_ne_zero h2
      simp only [Option.some.injEq] at h
      subst h
      rw [List.length_take, mgfFold_length hH, List.length_range, List.length_nil,
        Nat.zero_add]
      refine Nat.min_eq_left ?_
      by_cases hr : len % mgfHLen = 0
      · simp only [hr, ne_eq, not_true_eq_false, if_false, Nat.add_zero]
        rw [Nat.div_mul_cancel (Nat.dvd_of_mod_eq_zero hr)]
      · simp only [ne_eq, hr, not_false_eq_true, if_true]
        have h3 : len / mgfHLen * mgfHLen + len % mgfHLen = len := by
          rw [mul_comm]; exact Nat.div_add_mod len mgfHLen
        have h4 : len % mgfHLen < mgfHLen := Nat.mod_lt _ hpos
        refine le_of_lt ?_
        calc len = len / mgfHLen * mgfHLen + len % mgfHLen := h3.symm
          _ < len / mgfHLen * mgfHLen + mgfHLen :=
            Nat.add_lt_add_left h4 _
          _ = (len / mgfHLen + 1) * mgfHLen := by ring

theorem paddingScan_entered {db : List ℕ} {index : ℕ} (h : index < db.length) :
    ∀ fuel, paddingScan db index fuel = none := by
  intro fuel
  cases fuel with
  | zero => rfl
  | succ fuel => simp [paddingScan, pyEqIntBytes, h]

/-- C6: oaepDecrypt never returns a message: for every key, ciphertext,
label and hash (the mask hash having any fixed digest size, as hashlib
digests do), the call returns None — once the padding scan is reached, the
first scanned byte, an int, is compared with the bytes objects 0x01 / 0x00,
so the scan returns None on its first iteration. -/
theorem oaepDecrypt_always_none (hashF : List ℕ → List ℕ) (hLen : ℕ)
    (mgfH : List ℕ → List ℕ) (mgfHLen : ℕ)
    (hH : ∀ bs, (mgfH bs).length = mgfHLen)
    (d n : ℕ) (ciphertext label : List ℕ) (scanFuel : ℕ) :
    oaepDecrypt hashF hLen mgfH mgfHLen d n ciphertext label scanFuel = none := by
  unfold oaepDecrypt
  dsimp only
  split_ifs with h1 h2
  · rfl
  · rfl
  · rcases hdec : decrypt d ((n : ℕ) : ℤ) ((bytesToInt ciphertext : ℕ) : ℤ) with _ | m
    · rfl
    · dsimp only
      rcases hm1 : MGF mgfH mgfHLen ((natToBytesPadded m.toNat (byteLength n)).drop
          (1 + hLen)) hLen with _ | seedMask
      · rfl
      · dsimp only
        rcases hm2 : MGF mgfH mgfHLen
            (xorBytes (((natToBytesPadded m.toNat (byteLength n)).drop 1).take hLen)
              seedMask) (byteLength n - hLen - 1) with _ | dbMask
        · rfl
        · dsimp only
          set db := xorBytes ((natToBytesPadded m.toNat (byteLength n)).drop
            (1 + hLen)) dbMask with hdb
          have hdblen : db.length = byteLength n - hLen - 1 := by
            rw [hdb]
            unfold xorBytes
            rw [List.length_zipWith, List.length_drop, natToBytesPadded_length,
              MGF_length hH hm2]
            omega
          have hscan : hLen < db.length := by
            rw [hdblen]
            omega
          split_ifs with h3
          · rfl
          · rw [paddingScan_entered hscan]

/-- Witness for C6 at a concrete input (the digest-length hypothesis is
discharged for a constant toy hash). -/
theorem oaepDecrypt_always_none_witness :
    (∀ bs : List ℕ, ((fun _ : List ℕ => [0, 0, 0]) bs).length = 3) ∧
    oaepDecrypt (fun _ => [7]) 1 (fun _ => [0, 0, 0]) 3 1 65537 [1, 2, 3] [] 5
      = none :=
  ⟨fun _ => rfl,
    oaepDecrypt_always_none (fun _ => [7]) 1 (fun _ => [0, 0, 0]) 3
      (fun _ => rfl) 1 65537 [1, 2, 3] [] 5⟩

/-! ### C5: the OAEP round trip -/

/-- C5 (code-bug evidence): a complete OAEP round trip with a valid key
(n = 65537 · 257, e = d = 65537, e·d ≡ 1 mod lcm(65536, 256)) and an
admissible message: encryption succeeds, but decryption of its output
returns None instead of the message, because of the padding-scan
comparison bug recorded by C6. -/
theorem oaep_roundtrip_fails :
    (oaepEncrypt (fun _ => [7]) 1 (fun _ => [7]) 1 65537 16843009 [] [] 170).isSome
      = true ∧
    ((oaepEncrypt (fun _ => [7]) 1 (fun _ => [7]) 1 65537 16843009 [] [] 170).bind
        (fun ct => oaepDecrypt (fun _ => [7]) 1 (fun _ => [7]) 1 65537 16843009 ct [] 5))
      = none :=
  ⟨by decide, by decide⟩

/-- Witness for C10 at the concrete input p1 = 2, p2 = 3. -/
theorem computeR_congruences_witness :
    1 ≤ 2 ∧ Nat.gcd (2 * 2) 3 = 1 ∧
      ∃ R, computeR 2 3 = some R ∧
        R % ((2 * 2 : ℕ) : ℤ) = 1 ∧ R % ((3 : ℕ) : ℤ) = (-1) % ((3 : ℕ) : ℤ) :=
  ⟨by decide, by decide, computeR_congruences 2 3 (by decide) (by decide)⟩

end PtCryptRSA
